import Mathlib

/-!
# Verification of the GPTCodeFeeder chunk-orchestration pipeline

A shallow embedding of `GPTCodeFeeder.py` in Lean 4, together with proofs
about its chunking, budget-calculation and sequencing behaviour.

Python strings are modelled as lists of characters (`PyStr`); `len` is
`List.length`, string concatenation is `List.append`.  The directory walk
of the budget calculator is modelled by the list of per-file `getsize`
results (with `none` for a file whose size cannot be read, which in the
Python source raises an uncaught `OSError`).
-/

/-- A Python string, modelled as its sequence of characters. -/
abbrev PyStr := List Char

/-- The characters Python's `str.splitlines` treats as line boundaries. -/
def isLineBreak (c : Char) : Bool :=
  c == '\n' || c == '\r' || c == '\x0b' || c == '\x0c' ||
  c == '\x1c' || c == '\x1d' || c == '\x1e' || c == '\x85' ||
  c == '\u2028' || c == '\u2029'

/-- Model of Python's `content.splitlines(keepends=True)`: splits at the
line-boundary characters, keeping each terminator attached to its line and
treating the two-character sequence CR LF as a single boundary. -/
def splitlines : PyStr → List PyStr
  | [] => []
  | '\r' :: '\n' :: rest => ['\r', '\n'] :: splitlines rest
  | c :: rest =>
    if isLineBreak c then
      [c] :: splitlines rest
    else
      match splitlines rest with
      | [] => [[c]]
      | l :: ls => (c :: l) :: ls

/-- The loop of `get_file_chunks` (lines 71-81 of `GPTCodeFeeder.py`):
greedily accumulate whole lines into `current_chunk`; when adding the next
line would reach `token_limit`, append the accumulated buffer to `chunks`
and restart the buffer from that line; after the loop, append the final
buffer if it is non-empty. -/
def chunkLoop (token_limit : Int) : List PyStr → PyStr → List PyStr → List PyStr
  | [], current_chunk, chunks =>
    if current_chunk = [] then chunks else chunks ++ [current_chunk]
  | line :: rest, current_chunk, chunks =>
    if ((current_chunk ++ line).length : Int) < token_limit then
      chunkLoop token_limit rest (current_chunk ++ line) chunks
    else
      chunkLoop token_limit rest line (chunks ++ [current_chunk])

/-- Model of `get_file_chunks(file_path, token_limit)` after the file has
been successfully read as the text `content` (the decode-error branch
returns `[]` before this point and is not modelled here). -/
def get_file_chunks (content : PyStr) (token_limit : Int) : List PyStr :=
  chunkLoop token_limit (splitlines content) [] []

-- Sanity examples (concrete behaviour of the model).
example : splitlines "ab\ncd".data = ["ab\n".data, "cd".data] := by decide
example : get_file_chunks "ab\ncd\n".data 4 = ["ab\n".data, "cd\n".data] := by decide
example : get_file_chunks "ab\ncd\n".data 0 = [[], "ab\n".data, "cd\n".data] := by decide

/-! ## Basic lemmas about `splitlines` -/

set_option maxHeartbeats 1000000

theorem splitlines_flatten (cs : PyStr) : (splitlines cs).flatten = cs := by
  induction cs using splitlines.induct with
  | case1 => simp [splitlines]
  | case2 rest ih => simp [splitlines, ih]
  | case3 c rest hne hbr ih => simp [splitlines, hbr, ih]
  | case4 c rest hne hbr heq ih =>
    simp [splitlines, hbr, heq] at ih ⊢
    exact ih
  | case5 c rest hne hbr l ls heq ih =>
    simp [splitlines, hbr, heq]
    simpa [heq] using ih

theorem splitlines_ne_nil_mem (cs : PyStr) : ∀ l ∈ splitlines cs, l ≠ [] := by
  induction cs using splitlines.induct with
  | case1 => simp [splitlines]
  | case2 rest ih => simp [splitlines]; exact ih
  | case3 c rest hne hbr ih => simp [splitlines, hbr]; exact ih
  | case4 c rest hne hbr heq ih => simp [splitlines, hbr, heq]
  | case5 c rest hne hbr l ls heq ih =>
    simp [splitlines, hbr, heq]
    intro x hx
    exact ih x (by simp [heq, hx])

theorem splitlines_eq_nil_iff (cs : PyStr) : splitlines cs = [] ↔ cs = [] := by
  constructor
  · intro h
    have := splitlines_flatten cs
    rw [h] at this
    simpa using this.symm
  · intro h; subst h; rfl

/-! ## Lemmas about the chunking loop -/

/-- The loop preserves the total text: the flattening of its result is the
already-emitted text, then the buffer, then the remaining lines. -/
theorem chunkLoop_flatten (token_limit : Int) :
    ∀ (lines : List PyStr) (current : PyStr) (chunks : List PyStr),
      (chunkLoop token_limit lines current chunks).flatten
        = chunks.flatten ++ current ++ lines.flatten := by
  intro lines
  induction lines with
  | nil =>
    intro current chunks
    by_cases h : current = [] <;> simp [chunkLoop, h]
  | cons line rest ih =>
    intro current chunks
    by_cases h : ((current ++ line).length : Int) < token_limit
    · simp only [chunkLoop, if_pos h, ih]
      simp
    · simp only [chunkLoop, if_neg h, ih]
      simp

/-- The loop only ever appends to the list of already-emitted chunks, and
every chunk it appends from a non-empty buffer over non-empty lines is
non-empty. -/
theorem chunkLoop_shape (token_limit : Int) :
    ∀ (lines : List PyStr) (current : PyStr) (chunks : List PyStr),
      ∃ t, chunkLoop token_limit lines current chunks = chunks ++ t ∧
        (current ≠ [] → (∀ l ∈ lines, l ≠ []) → ∀ c ∈ t, c ≠ []) := by
  intro lines
  induction lines with
  | nil =>
    intro current chunks
    by_cases h : current = []
    · exact ⟨[], by simp [chunkLoop, h], fun hcur _ => absurd h hcur⟩
    · refine ⟨[current], by simp [chunkLoop, h], ?_⟩
      intro _ _ c hc
      simp at hc
      subst hc
      exact h
  | cons line rest ih =>
    intro current chunks
    by_cases h : ((current ++ line).length : Int) < token_limit
    · obtain ⟨t, ht, hne⟩ := ih (current ++ line) chunks
      refine ⟨t, ?_, ?_⟩
      · simp only [chunkLoop, if_pos h]
        exact ht
      · intro hcur hl c hc
        refine hne ?_ (fun x hx => hl x (by simp [hx])) c hc
        intro hemp
        rw [List.append_eq_nil] at hemp
        exact hcur hemp.1
    · obtain ⟨t, ht, hne⟩ := ih line (chunks ++ [current])
      refine ⟨current :: t, ?_, ?_⟩
      · simp only [chunkLoop, if_neg h]
        rw [ht]
        simp
      · intro hcur hl c hc
        rw [List.mem_cons] at hc
        rcases hc with hc | hc
        · subst hc; exact hcur
        · exact hne (hl line (by simp)) (fun x hx => hl x (by simp [hx])) c hc

/-- With a non-positive limit the guard never fires, so each line of a
non-empty buffer is flushed on its own. -/
theorem chunkLoop_nonpos (token_limit : Int) (hnp : token_limit ≤ 0) :
    ∀ (lines : List PyStr), (∀ l ∈ lines, l ≠ []) →
    ∀ (current : PyStr) (chunks : List PyStr), current ≠ [] →
      chunkLoop token_limit lines current chunks = chunks ++ current :: lines := by
  intro lines
  induction lines with
  | nil =>
    intro _ current chunks hcur
    simp [chunkLoop, hcur]
  | cons line rest ih =>
    intro hne current chunks hcur
    have hl : line ≠ [] := hne line (by simp)
    have hlen : 0 < (current ++ line).length := by
      rw [List.length_append]
      cases line with
      | nil => exact absurd rfl hl
      | cons a as => simp
    have hnot : ¬ (((current ++ line).length : Int) < token_limit) := by
      intro hcontra
      omega
    simp only [chunkLoop, if_neg hnot]
    rw [ih (fun x hx => hne x (by simp [hx])) line (chunks ++ [current]) hl]
    simp

/-- Every chunk the loop ever emits is either strictly below the limit or
one of the original lines, provided the limit is positive, the pending
lines all come from the original line list, and the buffer is empty, a
single original line, or strictly below the limit. -/
theorem chunkLoop_oversized (token_limit : Int) (hpos : 0 < token_limit)
    (L0 : List PyStr) :
    ∀ (lines : List PyStr), (∀ l ∈ lines, l ∈ L0) →
    ∀ (current : PyStr),
      (current = [] ∨ current ∈ L0 ∨ (current.length : Int) < token_limit) →
    ∀ (chunks : List PyStr),
      (∀ c ∈ chunks, (c.length : Int) < token_limit ∨ c ∈ L0) →
    ∀ c ∈ chunkLoop token_limit lines current chunks,
      (c.length : Int) < token_limit ∨ c ∈ L0 := by
  intro lines
  induction lines with
  | nil =>
    intro _ current hcur chunks hch c hc
    by_cases h : current = []
    · simp [chunkLoop, h] at hc
      exact hch c hc
    · simp [chunkLoop, h] at hc
      rcases hc with hc | hc
      · exact hch c hc
      · subst hc
        rcases hcur with h' | h' | h'
        · exact absurd h' h
        · exact Or.inr h'
        · exact Or.inl h'
  | cons line rest ih =>
    intro hsub current hcur chunks hch c hc
    have hline : line ∈ L0 := hsub line (by simp)
    have hsub' : ∀ l ∈ rest, l ∈ L0 := fun x hx => hsub x (by simp [hx])
    by_cases h : ((current ++ line).length : Int) < token_limit
    · simp only [chunkLoop, if_pos h] at hc
      exact ih hsub' (current ++ line) (Or.inr (Or.inr h)) chunks hch c hc
    · simp only [chunkLoop, if_neg h] at hc
      refine ih hsub' line (Or.inr (Or.inl hline)) (chunks ++ [current]) ?_ c hc
      intro x hx
      rw [List.mem_append] at hx
      rcases hx with hx | hx
      · exact hch x hx
      · simp at hx
        subst hx
        rcases hcur with h' | h' | h'
        · subst h'; exact Or.inl (by simpa using hpos)
        · exact Or.inr h'
        · exact Or.inl h'

/-! ## Claims about the Chunker -/

/-- C1: for every file content and every positive budget, concatenating the
chunks returned by `get_file_chunks` in order yields exactly the original
content, character for character, including embedded line terminators. -/
theorem chunk_reconstruction (content : PyStr) (budget : Int)
    (_hpos : 0 < budget) :
    (get_file_chunks content budget).flatten = content := by
  have h := chunkLoop_flatten budget (splitlines content) [] []
  simpa [get_file_chunks, splitlines_flatten] using h

theorem chunk_reconstruction_witness :
    0 < (7 : Int) ∧
      (get_file_chunks "hello\nworld\n".data 7).flatten = "hello\nworld\n".data :=
  ⟨by decide, chunk_reconstruction "hello\nworld\n".data 7 (by decide)⟩

/-- C2 counterexample: with budget 3 the two-line file "aaaa\nbbbb\n"
yields two chunks of length at least 3, so it is false that all chunks
except possibly one satisfy the bound. -/
theorem bound_respect_cex :
    ¬ (((get_file_chunks "aaaa\nbbbb\n".data 3).filter
          (fun c => decide ((3 : Int) ≤ (c.length : Int)))).length ≤ 1) := by
  decide

/-- C2 (amended): for every positive budget, every chunk whose length
reaches the budget is one of the file's lines (an oversized line); there
may be several such chunks, not at most one. -/
theorem bound_respect_oversized_lines (content : PyStr) (budget : Int)
    (hpos : 0 < budget) (c : PyStr)
    (hmem : c ∈ get_file_chunks content budget)
    (hlen : budget ≤ (c.length : Int)) :
    c ∈ splitlines content := by
  have h := chunkLoop_oversized budget hpos (splitlines content)
    (splitlines content) (fun _ hl => hl) [] (Or.inl rfl) [] (by simp)
    c hmem
  rcases h with h | h
  · exact absurd h (not_lt.mpr hlen)
  · exact h

theorem bound_respect_oversized_lines_witness :
    "aaaa\n".data ∈ splitlines "aaaa\nbbbb\n".data :=
  bound_respect_oversized_lines "aaaa\nbbbb\n".data 3 (by decide)
    "aaaa\n".data (by decide) (by decide)

/-- A concrete file of twenty one-character lines. -/
def twentyLineFile : PyStr := (List.replicate 20 "a\n".data).flatten

/-- C3 counterexample: `twentyLineFile` has exactly 20 lines, yet with the
non-positive budget 0 the code returns 21 chunks (a leading empty chunk
followed by the 20 lines), not 20. -/
theorem nonpositive_budget_cex :
    (splitlines twentyLineFile).length = 20 ∧
    (get_file_chunks twentyLineFile 0).length = 21 ∧
    ¬ ((get_file_chunks twentyLineFile 0).length = 20) := by
  refine ⟨by decide, by decide, by decide⟩

/-- C3 (amended): for every non-positive budget and non-empty file, the
result is one empty chunk followed by exactly one chunk per line of the
file, in order (so a 20-line file yields 21 chunks). -/
theorem nonpositive_budget_line_chunks (content : PyStr) (budget : Int)
    (hnp : budget ≤ 0) (hne : content ≠ []) :
    get_file_chunks content budget = [] :: splitlines content := by
  have hsl : splitlines content ≠ [] := by
    rw [Ne, splitlines_eq_nil_iff]
    exact hne
  obtain ⟨l, ls, hls⟩ : ∃ l ls, splitlines content = l :: ls := by
    cases h : splitlines content with
    | nil => exact absurd h hsl
    | cons a as => exact ⟨a, as, rfl⟩
  have hlne : ∀ x ∈ splitlines content, x ≠ [] := splitlines_ne_nil_mem content
  have hl : l ≠ [] := hlne l (by rw [hls]; simp)
  have hlen : 0 < (([] ++ l : PyStr)).length := by
    cases l with
    | nil => exact absurd rfl hl
    | cons a as => simp
  have hnot : ¬ ((([] ++ l : PyStr).length : Int) < budget) := by
    intro hcontra
    omega
  unfold get_file_chunks
  rw [hls]
  simp only [chunkLoop, if_neg hnot]
  rw [chunkLoop_nonpos budget hnp ls
    (fun x hx => hlne x (by rw [hls]; simp [hx])) l ([] ++ [[]]) hl]
  simp

theorem nonpositive_budget_line_chunks_witness :
    get_file_chunks twentyLineFile 0 = [] :: splitlines twentyLineFile :=
  nonpositive_budget_line_chunks twentyLineFile 0 (by decide) (by decide)

/-- C6: for every budget, including non-positive ones, an empty file yields
an empty chunk sequence and a non-empty file yields at least one chunk. -/
theorem chunk_count_signs (content : PyStr) (budget : Int) :
    (content = [] → get_file_chunks content budget = []) ∧
    (content ≠ [] → get_file_chunks content budget ≠ []) := by
  constructor
  · intro h
    subst h
    rfl
  · intro h hcontra
    have hf := chunkLoop_flatten budget (splitlines content) [] []
    rw [show chunkLoop budget (splitlines content) [] []
          = get_file_chunks content budget from rfl] at hf
    rw [hcontra] at hf
    simp [splitlines_flatten] at hf
    exact h hf

theorem chunk_count_signs_witness :
    get_file_chunks "a\n".data (-5) ≠ [] :=
  (chunk_count_signs "a\n".data (-5)).2 (by decide)

/-- C10: whenever the first line of a non-empty file is at least as long as
the budget (in particular whenever the budget is non-positive), the first
chunk emitted is the empty string, and the empty string never occurs at any
later position of the returned sequence. -/
theorem leading_empty_chunk (content : PyStr) (budget : Int)
    (l : PyStr) (ls : List PyStr)
    (hsplit : splitlines content = l :: ls)
    (hlen : budget ≤ (l.length : Int)) :
    (get_file_chunks content budget).head? = some [] ∧
    ∀ i, 0 < i → (get_file_chunks content budget).get? i ≠ some [] := by
  have hl : l ≠ [] := splitlines_ne_nil_mem content l (by rw [hsplit]; simp)
  have hnot : ¬ ((([] ++ l : PyStr).length : Int) < budget) := by
    simpa using not_lt.mpr hlen
  have hstep : get_file_chunks content budget
      = chunkLoop budget ls l ([] ++ [[]]) := by
    unfold get_file_chunks
    rw [hsplit]
    simp only [chunkLoop, if_neg hnot]
  obtain ⟨t, ht, hne⟩ := chunkLoop_shape budget ls l ([] ++ [[]])
  have htail : ∀ c ∈ t, c ≠ [] :=
    hne hl (fun x hx => splitlines_ne_nil_mem content x (by rw [hsplit]; simp [hx]))
  rw [hstep, ht]
  constructor
  · simp
  · intro i hi hcontra
    cases i with
    | zero => omega
    | succ n =>
      have hmem : ([] : PyStr) ∈ t := by
        have : t.get? n = some [] := by simpa using hcontra
        exact List.get?_mem this
      exact htail [] hmem rfl

theorem leading_empty_chunk_witness :
    (get_file_chunks "ab\n".data 2).head? = some [] ∧
    ∀ i, 0 < i → (get_file_chunks "ab\n".data 2).get? i ≠ some [] :=
  leading_empty_chunk "ab\n".data 2 "ab\n".data [] (by decide) (by decide)

/-! ## Budget Calculator (`calculate_dynamic_token_limit`) -/

/-- The `SAFE_MARGIN` configuration constant (reserved overhead). -/
def SAFE_MARGIN : Nat := 500

/-- The `DEFAULT_TARGET_CHUNKS` configuration constant. -/
def DEFAULT_TARGET_CHUNKS : Nat := 10

/-- The size pass of `calculate_dynamic_token_limit` (lines 36-40): sums
`os.path.getsize` over every file produced by the walk.  The loop has no
exception handling, so a file whose size cannot be read makes
`os.path.getsize` raise an uncaught `OSError`; such a file is modelled as
`none`, which aborts the whole computation. -/
def sizeWalk : List (Option Nat) → Option Nat
  | [] => some 0
  | none :: _ => none
  | some sz :: rest => (sizeWalk rest).map (fun t => sz + t)

/-- Model of `calculate_dynamic_token_limit(directory, target_chunks)`; the
directory is abstracted by the list of per-file `getsize` outcomes its walk
yields.  Mirrors `(total_size // target_chunks) - SAFE_MARGIN` followed by
`min(estimated_token_limit, 4000 - SAFE_MARGIN)`. -/
def calculate_dynamic_token_limit (files : List (Option Nat))
    (target_chunks : Nat) : Option Int :=
  (sizeWalk files).map (fun total_size =>
    let estimated_token_limit : Int :=
      ((total_size / target_chunks : Nat) : Int) - (SAFE_MARGIN : Int)
    min estimated_token_limit ((4000 : Int) - (SAFE_MARGIN : Int)))

theorem sizeWalk_map_some (sizes : List Nat) :
    sizeWalk (sizes.map some) = some sizes.sum := by
  induction sizes with
  | nil => rfl
  | cons sz rest ih => simp [sizeWalk, ih]

theorem sizeWalk_eq_none_iff (files : List (Option Nat)) :
    sizeWalk files = none ↔ none ∈ files := by
  induction files with
  | nil => simp [sizeWalk]
  | cons f rest ih =>
    cases f with
    | none => simp [sizeWalk]
    | some sz => simp [sizeWalk, ih]

/-- C5: on a tree whose files are all readable, the calculator always
returns a value; that value never exceeds `4000 - SAFE_MARGIN = 3500` and
equals `min(totalBytes // targetChunkCount - SAFE_MARGIN, 4000 - SAFE_MARGIN)`. -/
theorem budget_clamp (sizes : List Nat) (target_chunks : Nat)
    (_hpos : 0 < target_chunks) :
    ∃ b, calculate_dynamic_token_limit (sizes.map some) target_chunks = some b ∧
      b ≤ (4000 : Int) - (SAFE_MARGIN : Int) ∧
      b = min (((sizes.sum / target_chunks : Nat) : Int) - (SAFE_MARGIN : Int))
            ((4000 : Int) - (SAFE_MARGIN : Int)) := by
  refine ⟨min (((sizes.sum / target_chunks : Nat) : Int) - (SAFE_MARGIN : Int))
      ((4000 : Int) - (SAFE_MARGIN : Int)), ?_, min_le_right _ _, rfl⟩
  simp [calculate_dynamic_token_limit, sizeWalk_map_some]

theorem budget_clamp_witness :
    ∃ b, calculate_dynamic_token_limit (([1000] : List Nat).map some) 10 = some b ∧
      b ≤ (4000 : Int) - (SAFE_MARGIN : Int) ∧
      b = min (((([1000] : List Nat).sum / 10 : Nat) : Int) - (SAFE_MARGIN : Int))
            ((4000 : Int) - (SAFE_MARGIN : Int)) :=
  budget_clamp [1000] 10 (by decide)

/-- C8 counterexample: with one readable 1000-byte file and one unreadable
file the size pass aborts (uncaught `OSError` from `os.path.getsize`)
instead of skipping the unreadable file, so the calculator yields no value
at all. -/
theorem size_pass_abort_cex :
    calculate_dynamic_token_limit [some 1000, none] 10 = none := by decide

/-- C8 (amended): the size pass has no error handling: a missing or
unreadable file aborts the run, while on a tree whose files are all
readable the calculator always returns a value. -/
theorem size_pass_abort (files : List (Option Nat)) (target_chunks : Nat) :
    (none ∈ files → calculate_dynamic_token_limit files target_chunks = none) ∧
    (none ∉ files →
      ∃ b, calculate_dynamic_token_limit files target_chunks = some b) := by
  constructor
  · intro h
    have hw : sizeWalk files = none := (sizeWalk_eq_none_iff files).mpr h
    simp [calculate_dynamic_token_limit, hw]
  · intro h
    have hw : sizeWalk files ≠ none := fun hc => h ((sizeWalk_eq_none_iff files).mp hc)
    obtain ⟨t, ht⟩ := Option.ne_none_iff_exists'.mp hw
    exact ⟨min (((t / target_chunks : Nat) : Int) - (SAFE_MARGIN : Int))
        ((4000 : Int) - (SAFE_MARGIN : Int)),
      by simp [calculate_dynamic_token_limit, ht]⟩

theorem size_pass_abort_witness :
    calculate_dynamic_token_limit [none] 10 = none :=
  (size_pass_abort [none] 10).1 (by decide)

/-! ## Remote submission reply bound (`send_chunk_to_gpt`) -/

/-- The `max_tokens` argument built at line 100 of the source:
`min(len(chunk) + SAFE_MARGIN, 4000 - SAFE_MARGIN)`. -/
def send_chunk_max_tokens (chunk : PyStr) : Nat :=
  min (chunk.length + SAFE_MARGIN) (4000 - SAFE_MARGIN)

/-- C9 counterexample: for a 3001-character chunk the reply bound is 3500,
not `min(3001 + 500, 4000) = 3501`: the cap is `HardCeiling - SafeMargin`,
not the global ceiling `HardCeiling = 4000`. -/
theorem reply_bound_cex :
    send_chunk_max_tokens (List.replicate 3001 'a') = 3500 ∧
    send_chunk_max_tokens (List.replicate 3001 'a')
      ≠ min ((List.replicate 3001 'a').length + SAFE_MARGIN) 4000 := by
  constructor
  · norm_num [send_chunk_max_tokens, SAFE_MARGIN]
  · norm_num [send_chunk_max_tokens, SAFE_MARGIN]

/-- C9 (amended): the reply bound equals the chunk's length plus the safe
margin whenever that sum is within `4000 - SAFE_MARGIN = 3500`, and is
capped at 3500 (not at the global ceiling 4000) otherwise; in particular it
never exceeds 3500. -/
theorem reply_bound_cap (chunk : PyStr) :
    send_chunk_max_tokens chunk ≤ 4000 - SAFE_MARGIN ∧
    (chunk.length + SAFE_MARGIN ≤ 4000 - SAFE_MARGIN →
      send_chunk_max_tokens chunk = chunk.length + SAFE_MARGIN) ∧
    (4000 - SAFE_MARGIN ≤ chunk.length + SAFE_MARGIN →
      send_chunk_max_tokens chunk = 4000 - SAFE_MARGIN) :=
  ⟨min_le_right _ _, fun h => min_eq_left h, fun h => min_eq_right h⟩

theorem reply_bound_cap_witness :
    send_chunk_max_tokens "abc".data = "abc".data.length + SAFE_MARGIN :=
  (reply_bound_cap "abc".data).2.1 (by decide)

/-! ## Sequencer/Packager (`save_chunks_to_files`) -/

/-- Python's `str.replace("-", " ")` at line 157, specialised to the
single-character pattern actually used. -/
def replaceDash (s : String) : String :=
  String.mk (s.data.map (fun c => if c = '-' then ' ' else c))

/-- Helper for `str.title()`: tracks whether the previous character was a
letter; a letter after a non-letter is uppercased, any other letter is
lowercased. -/
def titleAux : Bool → List Char → List Char
  | _, [] => []
  | prevAlpha, c :: cs =>
    if c.isAlpha then
      (if prevAlpha then c.toLower else c.toUpper) :: titleAux true cs
    else
      c :: titleAux false cs

/-- Python's `str.title()` on the ASCII action names used here. -/
def pyTitle (s : String) : String := String.mk (titleAux false s.data)

/-- `formatted_action = action.replace("-", " ").title()` (line 157). -/
def formatted_action (action : String) : String := pyTitle (replaceDash action)

example : formatted_action "code-review" = "Code Review" := by decide

/-- The eight recognized `--action` values (the chain at lines 164-180 and
the argparse choices). -/
def recognizedActions : List String :=
  ["summarize", "analyze", "improve", "explain", "code-review", "usage",
   "generate-readme", "instructions"]

/-- The text of `chunk_0.txt` (lines 129-139): fixed orientation text
followed by the rendered folder structure. -/
def preambleText (folder_structure : String) : String :=
  "### Initial Instructions for ChatGPT ###\n" ++
  "We are providing a large codebase in multiple chunks along with the folder structure.\n" ++
  "Each chunk represents a part of the code and includes metadata such as file name and chunk number.\n" ++
  "Please wait until all chunks are provided before analyzing the code.\n" ++
  "Once all chunks are received, analyze the code to:\n" ++
  "1. Understand how the code works as a whole.\n" ++
  "2. Provide a basic explanation of its functionalities.\n" ++
  "3. Memorize the full codebase (not as independent chunks).\n" ++
  "After memorizing, follow the instructions for the specified action.\n" ++
  "Folder Structure:\n" ++
  folder_structure

/-- The text of one content artifact (lines 148-151): metadata header lines
followed by the raw chunk.  `chunk_number` is the 1-based index written by
the source (`chunk_number + 1` at line 149). -/
def contentUnitText (relative_path : String) (chunk_number : Nat)
    (chunk : String) : String :=
  "File: " ++ relative_path ++ "\n" ++
  "Chunk Number: " ++ toString chunk_number ++ "\n" ++
  "Content:\n" ++
  chunk

/-- The generic framing of the final artifact (lines 159-163), written for
every action. -/
def closingFramingText (action : String) : String :=
  "### Final Instructions for ChatGPT ###\n" ++
  "All chunks have been provided.\n" ++
  "You now have the complete project code and structure.\n" ++
  "Memorize it completely, then perform the following action:\n" ++
  "**Action: " ++ formatted_action action ++ "**\n"

/-- The action-specific instruction body selected by the `if`/`elif` chain
at lines 164-180; an unrecognized action selects no branch and contributes
nothing. -/
def actionBody (action : String) : String :=
  if action = "summarize" then
    "Summarize the code, providing a high-level overview of its structure and main functionalities.\n"
  else if action = "analyze" then
    "Perform a detailed analysis of the code\'s functionalities, characteristics, and usage examples.\n"
  else if action = "improve" then
    "Provide suggestions and improvements that could enhance the code.\n"
  else if action = "explain" then
    "Explain the code in detail, including how it works, its functions, and the technologies/techniques used.\n"
  else if action = "code-review" then
    "Conduct a detailed code review from a pentester\'s perspective, highlighting vulnerabilities and fixes.\n"
  else if action = "usage" then
    "Generate usage examples for every functionality and argument, including explanations and expected responses.\n"
  else if action = "generate-readme" then
    "Create a downloadable `README.md` file containing purpose, description, installation, usage, and disclaimers.\n"
  else if action = "instructions" then
    "Provide detailed installation or compilation instructions for the application.\n" ++
    "Include specific commands, dependencies, and any other requirements to set it up.\n"
  else
    ""

/-- The text of the final artifact: the framing writes followed by the
branch of the `if`/`elif` chain, in source order. -/
def closingText (action : String) : String :=
  closingFramingText action ++ actionBody action

/-- The inner loop at lines 145-153: one artifact per chunk of one file,
with the global `file_counter` and the per-file `chunk_number` advancing in
lockstep. -/
def fileChunkArtifacts (file_counter : Nat) (relative_path : String)
    (chunk_number : Nat) : List String → List (Nat × String)
  | [] => []
  | chunk :: rest =>
    (file_counter, contentUnitText relative_path (chunk_number + 1) chunk) ::
      fileChunkArtifacts (file_counter + 1) relative_path (chunk_number + 1) rest

/-- The outer loop at lines 143-153 over the entries of `file_map` (Python
dicts preserve insertion order, so the map is modelled as an ordered list
of `(relative_path, chunks)` pairs); after one file the counter has
advanced by that file's chunk count. -/
def mapArtifacts (file_counter : Nat) :
    List (String × List String) → List (Nat × String)
  | [] => []
  | fileEntry :: rest =>
    fileChunkArtifacts file_counter fileEntry.1 0 fileEntry.2 ++
      mapArtifacts (file_counter + fileEntry.2.length) rest

/-- The total number of content chunks of a file map. -/
def totalChunks (file_map : List (String × List String)) : Nat :=
  (file_map.map (fun fileEntry => fileEntry.2.length)).sum

/-- Model of `save_chunks_to_files(project_name, folder_structure,
file_map, action)`: the ordered list of `(artifact_number, text)` pairs it
writes (artifact `k` is the file `chunk_k.txt` in the output directory).
`chunk_0.txt` is the preamble, then one artifact per chunk with the counter
starting at 1, then the final instruction artifact at the exit value of the
counter. -/
def save_chunks_to_files (folder_structure : String)
    (file_map : List (String × List String)) (action : String) :
    List (Nat × String) :=
  ((0, preambleText folder_structure) :: mapArtifacts 1 file_map) ++
    [(1 + totalChunks file_map, closingText action)]

/-! ## Lemmas about the packager -/

theorem fileChunkArtifacts_map_fst (relative_path : String) :
    ∀ (chunks : List String) (fc cn : Nat),
      (fileChunkArtifacts fc relative_path cn chunks).map Prod.fst
        = List.range' fc chunks.length := by
  intro chunks
  induction chunks with
  | nil => intro fc cn; simp [fileChunkArtifacts]
  | cons c cs ih =>
    intro fc cn
    simp [fileChunkArtifacts, ih, List.range'_succ]

theorem fileChunkArtifacts_map_snd (relative_path : String) :
    ∀ (chunks : List String) (fc cn : Nat),
      (fileChunkArtifacts fc relative_path cn chunks).map Prod.snd
        = (List.enumFrom (cn + 1) chunks).map
            (fun q => contentUnitText relative_path q.1 q.2) := by
  intro chunks
  induction chunks with
  | nil => intro fc cn; simp [fileChunkArtifacts]
  | cons c cs ih =>
    intro fc cn
    simp [fileChunkArtifacts, ih, List.enumFrom_cons]

theorem mapArtifacts_map_fst :
    ∀ (file_map : List (String × List String)) (fc : Nat),
      (mapArtifacts fc file_map).map Prod.fst
        = List.range' fc (totalChunks file_map) := by
  intro file_map
  induction file_map with
  | nil => intro fc; simp [mapArtifacts, totalChunks]
  | cons fileEntry rest ih =>
    intro fc
    have happ := List.range'_append fc fileEntry.2.length (totalChunks rest) 1
    simp only [one_mul] at happ
    simp [mapArtifacts, totalChunks, fileChunkArtifacts_map_fst, ih, ← happ,
      Nat.add_comm]

theorem mapArtifacts_map_snd :
    ∀ (file_map : List (String × List String)) (fc : Nat),
      (mapArtifacts fc file_map).map Prod.snd
        = file_map.flatMap
            (fun fileEntry => (List.enumFrom 1 fileEntry.2).map
              (fun q => contentUnitText fileEntry.1 q.1 q.2)) := by
  intro file_map
  induction file_map with
  | nil => intro fc; simp [mapArtifacts]
  | cons fileEntry rest ih =>
    intro fc
    simp [mapArtifacts, fileChunkArtifacts_map_snd, ih]

theorem mapArtifacts_length (file_map : List (String × List String))
    (fc : Nat) : (mapArtifacts fc file_map).length = totalChunks file_map := by
  have h := congrArg List.length (mapArtifacts_map_fst file_map fc)
  simpa using h

/-! ## Claims about the Sequencer/Packager -/

/-- C4: the materialized output has exactly `2 + sum(c_i)` artifacts,
numbered `0, 1, ...` by position with no gaps, the first being the preamble
artifact, the last the closing artifact, and the ones in between exactly
one per chunk in file-then-chunk order with 1-based per-file chunk
numbers. -/
theorem assemble_sequence_shape (folder_structure : String)
    (file_map : List (String × List String)) (action : String) :
    (save_chunks_to_files folder_structure file_map action).length
        = 2 + totalChunks file_map ∧
    (save_chunks_to_files folder_structure file_map action).map Prod.fst
        = List.range (2 + totalChunks file_map) ∧
    (save_chunks_to_files folder_structure file_map action).head?
        = some (0, preambleText folder_structure) ∧
    (save_chunks_to_files folder_structure file_map action).getLast?
        = some (1 + totalChunks file_map, closingText action) ∧
    ((save_chunks_to_files folder_structure file_map action).map Prod.snd).drop 1
        = (file_map.flatMap
            (fun fileEntry => (List.enumFrom 1 fileEntry.2).map
              (fun q => contentUnitText fileEntry.1 q.1 q.2)))
          ++ [closingText action] := by
  refine ⟨?_, ?_, ?_, ?_, ?_⟩
  · simp [save_chunks_to_files, mapArtifacts_length]
    omega
  · have h1 : List.range (2 + totalChunks file_map)
        = 0 :: (List.range' 1 (totalChunks file_map) ++ [1 + totalChunks file_map]) := by
      rw [List.range_eq_range']
      rw [show 2 + totalChunks file_map = (totalChunks file_map + 1) + 1 by omega]
      rw [List.range'_succ]
      rw [List.range'_concat]
      simp
    rw [h1]
    simp [save_chunks_to_files, mapArtifacts_map_fst]
  · simp [save_chunks_to_files]
  · exact List.getLast?_concat _
  · simp [save_chunks_to_files, mapArtifacts_map_snd]

/-- C7: for every action outside the eight recognized ones the final
artifact is still produced (assembly is total, no fatal error) and its text
is exactly the generic framing, with no action-specific body. -/
theorem action_fallback (action : String)
    (hna : action ∉ recognizedActions) :
    closingText action = closingFramingText action := by
  simp only [recognizedActions, List.mem_cons, List.mem_singleton] at hna
  push_neg at hna
  obtain ⟨h1, h2, h3, h4, h5, h6, h7, h8⟩ := hna
  simp [closingText, actionBody, h1, h2, h3, h4, h5, h6, h7, h8]

theorem action_fallback_witness :
    closingText "unknown-action" = closingFramingText "unknown-action" :=
  action_fallback "unknown-action" (by decide)
